import Mathlib

/-!
Verification of the serializer subsystem (sagemaker `serializers.py`).

The development shallowly embeds the Python module:

* `PyVal` models the Python values that can reach `JSONSerializer.serialize`:
  mappings (with an optional duck-typed `read` attribute, since a mapping
  subclass may define one), readable streams (anything exposing `read`),
  numpy arrays (shape plus row-major integer data; float dtypes and their
  textual formatting are outside the model), the JSON-native scalars and
  containers, Python sets, and an opaque non-serializable object `custom`.
  Numbers are modelled as unbounded integers (Python ints are arbitrary
  precision); circular structures cannot be expressed in an inductive model.
* `JSON` is the abstract JSON document produced by the standard encoder.
* `dumps` embeds `json.dumps` with its default separators (", " and ": ")
  and `ensure_ascii` escaping restricted to the basic multilingual plane;
  `pyToJson` embeds the encoder's conversion of Python values, failing with
  `TypeError`-style messages exactly where `json.dumps` raises.
* `loads` is a standard recursive-descent JSON decoder, used to state the
  round-trip properties.
* `JSONSerializer.serialize` embeds the dispatch of the source, arm by arm;
  reading a stream is the only side effect, so the function returns the
  result together with the post-call state of its argument.
* `VariantClass` / `instantiate` embed the `abc` machinery of the base
  class: a concrete variant that fails to override an abstract member
  cannot be instantiated.
-/

set_option maxHeartbeats 1600000

/-- Abstract JSON documents (the standard encoder's value domain,
with numbers restricted to integers). -/
inductive JSON where
  | null : JSON
  | bool (b : Bool) : JSON
  | int (n : Int) : JSON
  | str (s : String) : JSON
  | arr (xs : List JSON) : JSON
  | obj (kvs : List (String × JSON)) : JSON

/-! ## Decimal numerals -/

/-- The decimal digit character for a value below ten. -/
def digitChar (d : Nat) : Char :=
  if d = 0 then '0' else if d = 1 then '1' else if d = 2 then '2'
  else if d = 3 then '3' else if d = 4 then '4' else if d = 5 then '5'
  else if d = 6 then '6' else if d = 7 then '7' else if d = 8 then '8' else '9'

/-- Little-endian decimal digits of a natural number; `fuel` bounds the
recursion depth and any `fuel ≥ n` is enough. -/
def natDigitsRevFuel : Nat → Nat → List Char
  | 0, _ => []
  | fuel + 1, n => if n = 0 then [] else digitChar (n % 10) :: natDigitsRevFuel fuel (n / 10)

/-- Decimal numeral of a natural number. -/
def natReprL (n : Nat) : List Char :=
  if n = 0 then '0' :: [] else (natDigitsRevFuel n n).reverse

/-- Decimal numeral of an integer, as emitted by the standard JSON encoder. -/
def intReprL (n : Int) : List Char :=
  if n < 0 then '-' :: natReprL n.natAbs else natReprL n.natAbs

/-! ## String escaping (ensure_ascii) -/

/-- Lower-case hexadecimal digit character. -/
def hexDigitChar (n : Nat) : Char :=
  if n < 10 then digitChar n
  else if n = 10 then 'a' else if n = 11 then 'b' else if n = 12 then 'c'
  else if n = 13 then 'd' else if n = 14 then 'e' else 'f'

/-- Four-digit hexadecimal rendering used by the \u escape. -/
def hex4 (n : Nat) : List Char :=
  [hexDigitChar (n / 4096 % 16), hexDigitChar (n / 256 % 16),
   hexDigitChar (n / 16 % 16), hexDigitChar (n % 16)]

/-- Escaping of a single character, as the standard encoder with
`ensure_ascii` does for code points in the basic multilingual plane. -/
def escapeChar (c : Char) : List Char :=
  if c = '"' then ['\\', '"']
  else if c = '\\' then ['\\', '\\']
  else if c = '\n' then ['\\', 'n']
  else if c = '\t' then ['\\', 't']
  else if c = '\r' then ['\\', 'r']
  else if c = '\x08' then ['\\', 'b']
  else if c = '\x0c' then ['\\', 'f']
  else if c.toNat < 32 ∨ 128 ≤ c.toNat then '\\' :: 'u' :: hex4 c.toNat
  else [c]

/-- Escaping of a character sequence. -/
def escapeL : List Char → List Char
  | [] => []
  | c :: cs => escapeChar c ++ escapeL cs

/-! ## The standard JSON encoder (json.dumps on JSON documents) -/

mutual
/-- Text of a JSON document, with the default separators of `json.dumps`. -/
def dumpsL : JSON → List Char
  | .null => 'n' :: 'u' :: 'l' :: 'l' :: []
  | .bool true => 't' :: 'r' :: 'u' :: 'e' :: []
  | .bool false => 'f' :: 'a' :: 'l' :: 's' :: 'e' :: []
  | .int n => intReprL n
  | .str s => '"' :: escapeL s.data ++ ['"']
  | .arr xs => '[' :: dumpsElems xs ++ [']']
  | .obj kvs => '\x7b' :: dumpsMembers kvs ++ ['\x7d']

/-- Comma-separated rendering of array elements. -/
def dumpsElems : List JSON → List Char
  | [] => []
  | x :: t => dumpsL x ++ dumpsTail t

/-- Rendering of the array elements after the first, each preceded by ", ". -/
def dumpsTail : List JSON → List Char
  | [] => []
  | x :: t => ',' :: ' ' :: dumpsL x ++ dumpsTail t

/-- Comma-separated rendering of object members. -/
def dumpsMembers : List (String × JSON) → List Char
  | [] => []
  | (k, v) :: t => '"' :: escapeL k.data ++ '"' :: ':' :: ' ' :: dumpsL v ++ dumpsMembersTail t

/-- Rendering of the object members after the first, each preceded by ", ". -/
def dumpsMembersTail : List (String × JSON) → List Char
  | [] => []
  | (k, v) :: t =>
    ',' :: ' ' :: '"' :: escapeL k.data ++ '"' :: ':' :: ' ' :: dumpsL v ++ dumpsMembersTail t
end

/-- The standard JSON encoder, embedding `json.dumps`. -/
def dumps (v : JSON) : String := String.mk (dumpsL v)

/-! ## A standard JSON decoder (json.loads) -/

/-- JSON whitespace. -/
def isWsChar (c : Char) : Bool := c = ' ' || c = '\n' || c = '\t' || c = '\r'

/-- Skip leading whitespace. -/
def skipWs : List Char → List Char
  | [] => []
  | c :: cs => if isWsChar c then skipWs cs else c :: cs

/-- Numeric value of a decimal digit character. -/
def digitVal (c : Char) : Nat := c.toNat - 48

/-- Consume a maximal run of decimal digits, accumulating their value. -/
def parseDigits : List Char → Nat → Nat × List Char
  | [], acc => (acc, [])
  | c :: cs, acc => if c.isDigit then parseDigits cs (acc * 10 + digitVal c) else (acc, c :: cs)

/-- Parse a nonempty run of decimal digits. -/
def parseNat : List Char → Option (Nat × List Char)
  | [] => none
  | c :: cs => if c.isDigit then some (parseDigits (c :: cs) 0) else none

/-- Numeric value of a hexadecimal digit character, if any. -/
def hexVal (c : Char) : Option Nat :=
  if c.isDigit then some (c.toNat - 48)
  else if 97 ≤ c.toNat ∧ c.toNat ≤ 102 then some (c.toNat - 87)
  else if 65 ≤ c.toNat ∧ c.toNat ≤ 70 then some (c.toNat - 55)
  else none

/-- Single-character escapes accepted after a backslash. -/
def unescapeChar (e : Char) : Option Char :=
  if e = '"' then some '"'
  else if e = '\\' then some '\\'
  else if e = '/' then some '/'
  else if e = 'n' then some '\n'
  else if e = 't' then some '\t'
  else if e = 'r' then some '\r'
  else if e = 'b' then some '\x08'
  else if e = 'f' then some '\x0c'
  else none

/-- Parse the body of a string literal up to its closing quote. -/
def parseStringBody : List Char → Option (List Char × List Char)
  | [] => none
  | c :: cs =>
    if c = '"' then some ([], cs)
    else if c = '\\' then
      match cs with
      | 'u' :: h1 :: h2 :: h3 :: h4 :: cs' =>
        match hexVal h1, hexVal h2, hexVal h3, hexVal h4 with
        | some a, some b, some c', some d =>
          (parseStringBody cs').map fun p =>
            (Char.ofNat (4096 * a + 256 * b + 16 * c' + d) :: p.1, p.2)
        | _, _, _, _ => none
      | e :: cs' =>
        match unescapeChar e with
        | some u => (parseStringBody cs').map (fun p => (u :: p.1, p.2))
        | none => none
      | [] => none
    else (parseStringBody cs).map (fun p => (c :: p.1, p.2))

/-- What the decoder is currently parsing: a value, the remainder of an
array after its first element, or the remainder of an object after its
first member. -/
inductive PMode where
  | value : PMode
  | elems : PMode
  | members : PMode

/-- Result type of each decoder mode. -/
def POut : PMode → Type
  | .value => JSON
  | .elems => List JSON
  | .members => List (String × JSON)

/-- The recursive descent of the decoder; `fuel` bounds the depth. -/
def parseGo : Nat → (m : PMode) → List Char → Option (POut m × List Char)
  | 0, _, _ => none
  | fuel + 1, .value, l =>
    match l with
    | [] => none
    | c :: cs =>
      if c = 'n' then
        match cs with
        | 'u' :: 'l' :: 'l' :: r => some (.null, r)
        | _ => none
      else if c = 't' then
        match cs with
        | 'r' :: 'u' :: 'e' :: r => some (.bool true, r)
        | _ => none
      else if c = 'f' then
        match cs with
        | 'a' :: 'l' :: 's' :: 'e' :: r => some (.bool false, r)
        | _ => none
      else if c = '"' then
        match parseStringBody cs with
        | some (s, r) => some (.str (String.mk s), r)
        | none => none
      else if c = '[' then
        match skipWs cs with
        | [] => none
        | c' :: r =>
          if c' = ']' then some (.arr [], r)
          else
            match parseGo fuel .value (c' :: r) with
            | some (v, r1) =>
              match parseGo fuel .elems r1 with
              | some (vs, r2) => some (.arr (v :: vs), r2)
              | none => none
            | none => none
      else if c = '\x7b' then
        match skipWs cs with
        | [] => none
        | c' :: r =>
          if c' = '\x7d' then some (.obj [], r)
          else if c' = '"' then
            match parseStringBody r with
            | some (k, r1) =>
              match skipWs r1 with
              | [] => none
              | c2 :: r2 =>
                if c2 = ':' then
                  match parseGo fuel .value (skipWs r2) with
                  | some (v, r3) =>
                    match parseGo fuel .members r3 with
                    | some (kvs, r4) => some (.obj ((String.mk k, v) :: kvs), r4)
                    | none => none
                  | none => none
                else none
            | none => none
          else none
      else if c = '-' then
        match parseNat cs with
        | some (m, r) => some (.int (-(m : Int)), r)
        | none => none
      else if c.isDigit then
        match parseNat (c :: cs) with
        | some (m, r) => some (.int (m : Int), r)
        | none => none
      else none
  | fuel + 1, .elems, l =>
    match skipWs l with
    | [] => none
    | c :: r =>
      if c = ']' then some ([], r)
      else if c = ',' then
        match parseGo fuel .value (skipWs r) with
        | some (v, r1) =>
          match parseGo fuel .elems r1 with
          | some (vs, r2) => some (v :: vs, r2)
          | none => none
        | none => none
      else none
  | fuel + 1, .members, l =>
    match skipWs l with
    | [] => none
    | c :: r =>
      if c = '\x7d' then some ([], r)
      else if c = ',' then
        match skipWs r with
        | [] => none
        | c1 :: r1 =>
          if c1 = '"' then
            match parseStringBody r1 with
            | some (k, r2) =>
              match skipWs r2 with
              | [] => none
              | c2 :: r3 =>
                if c2 = ':' then
                  match parseGo fuel .value (skipWs r3) with
                  | some (v, r4) =>
                    match parseGo fuel .members r4 with
                    | some (kvs, r5) => some ((String.mk k, v) :: kvs, r5)
                    | none => none
                  | none => none
                else none
            | none => none
          else none
      else none

/-- Parse one JSON value. -/
def parseValue (fuel : Nat) (l : List Char) : Option (JSON × List Char) :=
  parseGo fuel .value l

/-- Parse the remainder of an array after its first element. -/
def parseElemsRest (fuel : Nat) (l : List Char) : Option (List JSON × List Char) :=
  parseGo fuel .elems l

/-- Parse the remainder of an object after its first member. -/
def parseMembersRest (fuel : Nat) (l : List Char) : Option (List (String × JSON) × List Char) :=
  parseGo fuel .members l

/-- The standard JSON decoder: parse one document and reject trailing text. -/
def loads (s : String) : Option JSON :=
  match parseValue (s.length + 1) (skipWs s.data) with
  | some (v, r) => if skipWs r = [] then some v else none
  | none => none

/-! ## The Python value domain -/

/-- Python values reaching `serialize`.  A mapping carries a flag recording
whether it also exposes a duck-typed `read` attribute (a mapping subclass
may define one); a stream is anything exposing `read`, with its contents
and current read position; an ndarray is a shape together with its
row-major element data; `custom` is an arbitrary object with none of the
recognised shapes and no JSON representation. -/
inductive PyVal where
  | pynone : PyVal
  | pybool (b : Bool) : PyVal
  | pyint (n : Int) : PyVal
  | pystr (s : String) : PyVal
  | pylist (xs : List PyVal) : PyVal
  | pyset (xs : List PyVal) : PyVal
  | pydict (readAttr : Bool) (items : List (String × PyVal)) : PyVal
  | pystream (contents : List Char) (pos : Nat) : PyVal
  | ndarray (shape : List Nat) (data : List Int) : PyVal
  | custom : PyVal

/-- Shape test embedded from the source: isinstance of dict. -/
def isDictV : PyVal → Bool
  | .pydict _ _ => true
  | _ => false

/-- Shape test embedded from the source: hasattr read. -/
def hasReadAttr : PyVal → Bool
  | .pystream _ _ => true
  | .pydict r _ => r
  | _ => false

/-- Shape test embedded from the source: isinstance of ndarray. -/
def isNdarrayV : PyVal → Bool
  | .ndarray _ _ => true
  | _ => false

/-! ## numpy tolist -/

/-- Split row-major data into a given count of rows of size k. -/
def chunks (k : Nat) : Nat → List Int → List (List Int)
  | 0, _ => []
  | n + 1, data => data.take k :: chunks k n (data.drop k)

/-- Embedding of numpy `ndarray.tolist`: nested Python lists in row-major
order; a zero-dimensional array yields its scalar. -/
def tolist : List Nat → List Int → PyVal
  | [], data => .pyint (data.headD 0)
  | n :: rest, data => .pylist ((chunks rest.prod n data).map (fun c => tolist rest c))

/-- The list conversion of an ndarray, as a JSON document. -/
def tolistJ : List Nat → List Int → JSON
  | [], data => .int (data.headD 0)
  | n :: rest, data => .arr ((chunks rest.prod n data).map (fun c => tolistJ rest c))

mutual
/-- Row-major flattening of a nested-list JSON document of integers. -/
def flattenJ : JSON → List Int
  | .int n => [n]
  | .arr xs => flattenJList xs
  | _ => []

/-- Row-major flattening of a list of nested-list JSON documents. -/
def flattenJList : List JSON → List Int
  | [] => []
  | x :: xs => flattenJ x ++ flattenJList xs
end

/-! ## The encoder's view of Python values -/

mutual
/-- Conversion of a Python value to a JSON document, embedding what
`json.dumps` accepts; it raises a `TypeError` on any value without a JSON
representation, at any depth. -/
def pyToJson : PyVal → Except String JSON
  | .pynone => .ok .null
  | .pybool b => .ok (.bool b)
  | .pyint n => .ok (.int n)
  | .pystr s => .ok (.str s)
  | .pylist xs =>
    match pyToJsonList xs with
    | .ok js => .ok (.arr js)
    | .error e => .error e
  | .pyset _ => .error "Object of type set is not JSON serializable"
  | .pydict _ items =>
    match pyToJsonItems items with
    | .ok js => .ok (.obj js)
    | .error e => .error e
  | .pystream _ _ => .error "Object of type stream is not JSON serializable"
  | .ndarray _ _ => .error "Object of type ndarray is not JSON serializable"
  | .custom => .error "Object of type custom is not JSON serializable"

/-- Conversion of the elements of a Python list. -/
def pyToJsonList : List PyVal → Except String (List JSON)
  | [] => .ok []
  | x :: xs =>
    match pyToJson x with
    | .ok j =>
      match pyToJsonList xs with
      | .ok js => .ok (j :: js)
      | .error e => .error e
    | .error e => .error e

/-- Conversion of the members of a Python mapping. -/
def pyToJsonItems : List (String × PyVal) → Except String (List (String × JSON))
  | [] => .ok []
  | (k, v) :: xs =>
    match pyToJson v with
    | .ok j =>
      match pyToJsonItems xs with
      | .ok js => .ok ((k, j) :: js)
      | .error e => .error e
    | .error e => .error e
end

/-- Full `json.dumps` on a Python value: convert, then render. -/
def jsonDumpsPy (v : PyVal) : Except String String :=
  match pyToJson v with
  | .ok j => .ok (dumps j)
  | .error e => .error e

/-! ## JSONSerializer -/

/-- The per-value conversion of the dict comprehension in the source:
value.tolist() if isinstance(value, np.ndarray) else value. -/
def convertTop : PyVal → PyVal
  | .ndarray s d => tolist s d
  | v => v

/-- The mapping branch of `serialize`: build a fresh dict whose top-level
ndarray values are replaced by their list conversion, then encode it. -/
def serializeDictItems (items : List (String × PyVal)) : Except String String :=
  jsonDumpsPy (.pydict false (items.map fun kv => (kv.1, convertTop kv.2)))

/-- MIME type declared by the JSON serializer. -/
def JSONSerializer.CONTENT_TYPE : String := "application/json"

/-- Embedding of `JSONSerializer.serialize`.  Reading a stream is the only
side effect of the source, so the result is paired with the post-call
state of the argument. -/
def JSONSerializer.serialize (data : PyVal) : Except String String × PyVal :=
  match data with
  | .pydict r items => (serializeDictItems items, .pydict r items)
  | .pystream c p => (.ok (String.mk (c.drop p)), .pystream c c.length)
  | .ndarray s d => (jsonDumpsPy (tolist s d), .ndarray s d)
  | d => (jsonDumpsPy d, d)

/-- The four arms of the source's dispatch. -/
inductive Branch where
  | mapping : Branch
  | stream : Branch
  | array : Branch
  | fallback : Branch
deriving DecidableEq

/-- The dispatch order of the source, as a first-match-wins chain over the
three shape tests. -/
def dispatch (d : PyVal) : Branch :=
  if isDictV d then .mapping
  else if hasReadAttr d then .stream
  else if isNdarrayV d then .array
  else .fallback

/-- A request prepared for the transport collaborator: the serialized
payload together with the serializer's content type. -/
def prepareRequest (data : PyVal) : (Except String String × PyVal) × String :=
  (JSONSerializer.serialize data, JSONSerializer.CONTENT_TYPE)

/-! ## The abstract base class -/

/-- An instantiated serializer: both members present. -/
structure SerializerInstance where
  contentType : String
  serializeFn : PyVal → Except String String × PyVal

/-- A concrete variant's class body, recording which of the two abstract
members of the base class it overrides. -/
structure VariantClass where
  serializeImpl : Option (PyVal → Except String String × PyVal)
  contentTypeImpl : Option String

/-- Embedding of the `abc` machinery: instantiation succeeds only when no
abstract member is left unimplemented, and raises a `TypeError` otherwise. -/
def instantiate (c : VariantClass) : Except String SerializerInstance :=
  match c.serializeImpl, c.contentTypeImpl with
  | some f, some ct => .ok ⟨ct, f⟩
  | _, _ => .error "TypeError: cannot instantiate abstract class"

/-- The JSON serializer variant, which overrides both abstract members. -/
def jsonSerializerClass : VariantClass :=
  ⟨some JSONSerializer.serialize, some JSONSerializer.CONTENT_TYPE⟩

/-! ## Spec-side value classes -/

/-- JSON-primitive Python values and their JSON form. -/
def primJson : PyVal → Option JSON
  | .pynone => some .null
  | .pybool b => some (.bool b)
  | .pyint n => some (.int n)
  | .pystr s => some (.str s)
  | _ => none

/-- The value a decoded member is expected to have: the list form for a
numeric array, the primitive's own JSON form otherwise. -/
def expectedVal : PyVal → Option JSON
  | .ndarray s d => some (tolistJ s d)
  | v => primJson v

/-- Expected decoded members of a mapping of primitives and arrays. -/
def expectedItems : List (String × PyVal) → Option (List (String × JSON))
  | [] => some []
  | (k, v) :: t =>
    match expectedVal v, expectedItems t with
    | some j, some js => some ((k, j) :: js)
    | _, _ => none

/-- Characters that the encoder passes through unescaped. -/
def safeChar (c : Char) : Bool :=
  32 ≤ c.toNat && c.toNat < 128 && !(c = '"') && !(c = '\\')

/-- Strings made only of unescaped characters. -/
def safeS (l : List Char) : Bool := l.all safeChar

/-- JSON documents all of whose strings are unescaped-safe. -/
inductive SafeJ : JSON → Prop where
  | null : SafeJ .null
  | bool (b : Bool) : SafeJ (.bool b)
  | int (n : Int) : SafeJ (.int n)
  | str (s : String) (h : safeS s.data = true) : SafeJ (.str s)
  | arr (xs : List JSON) (h : ∀ x ∈ xs, SafeJ x) : SafeJ (.arr xs)
  | obj (kvs : List (String × JSON)) (hk : ∀ kv ∈ kvs, safeS kv.1.data = true)
      (hv : ∀ kv ∈ kvs, SafeJ kv.2) : SafeJ (.obj kvs)

/-- Input whose head, if any, is not a digit (so a numeral before it ends). -/
def noDigitStart (l : List Char) : Bool :=
  match l with
  | [] => true
  | c :: _ => !c.isDigit

/-- Statement that the decoder recovers a document from its rendering,
whatever follows it. -/
abbrev ParsesOK (v : JSON) : Prop :=
  ∀ fuel rest, (dumpsL v).length < fuel → noDigitStart rest = true →
    parseValue fuel (dumpsL v ++ rest) = some (v, rest)

/-! ## Numeral lemmas -/

theorem digitChar_isDigit (d : Nat) (h : d < 10) : (digitChar d).isDigit = true := by
  interval_cases d <;> decide

theorem digitVal_digitChar (d : Nat) (h : d < 10) : digitVal (digitChar d) = d := by
  interval_cases d <;> decide

theorem natDigitsRevFuel_all_digits (fuel : Nat) :
    ∀ n, n ≤ fuel → ∀ c ∈ natDigitsRevFuel fuel n, c.isDigit = true := by
  induction fuel with
  | zero =>
    intro n hn c hc
    simp [natDigitsRevFuel] at hc
  | succ fuel ih =>
    intro n hn c hc
    by_cases h0 : n = 0
    · simp [natDigitsRevFuel, h0] at hc
    · simp only [natDigitsRevFuel, h0, if_false, List.mem_cons, ite_false] at hc
      rcases hc with rfl | hc
      · exact digitChar_isDigit _ (Nat.mod_lt _ (by norm_num))
      · have hdiv : n / 10 < n := Nat.div_lt_self (Nat.pos_of_ne_zero h0) (by norm_num)
        exact ih (n / 10) (by omega) c hc

theorem natDigitsRevFuel_ne_nil (fuel n : Nat) (hn : n ≤ fuel) (h0 : n ≠ 0) :
    natDigitsRevFuel fuel n ≠ [] := by
  cases fuel with
  | zero => omega
  | succ fuel => simp [natDigitsRevFuel, h0]

theorem foldl_natDigitsRevFuel (fuel : Nat) :
    ∀ n acc, n ≤ fuel →
      List.foldl (fun a c => a * 10 + digitVal c) acc ((natDigitsRevFuel fuel n).reverse)
        = acc * 10 ^ (natDigitsRevFuel fuel n).length + n := by
  induction fuel with
  | zero =>
    intro n acc hn
    interval_cases n
    simp [natDigitsRevFuel]
  | succ fuel ih =>
    intro n acc hn
    by_cases h0 : n = 0
    · simp [natDigitsRevFuel, h0]
    · have hdiv : n / 10 < n := Nat.div_lt_self (Nat.pos_of_ne_zero h0) (by norm_num)
      have hstep : natDigitsRevFuel (fuel + 1) n
          = digitChar (n % 10) :: natDigitsRevFuel fuel (n / 10) := by
        simp [natDigitsRevFuel, h0]
      rw [hstep, List.reverse_cons, List.foldl_append, ih (n / 10) acc (by omega)]
      simp only [List.foldl_cons, List.foldl_nil, List.length_cons]
      rw [digitVal_digitChar _ (Nat.mod_lt _ (by norm_num)), pow_succ]
      have hmod := Nat.div_add_mod n 10
      ring_nf
      omega

theorem parseDigits_append (ds : List Char) :
    ∀ acc rest, (∀ c ∈ ds, c.isDigit = true) → noDigitStart rest = true →
      parseDigits (ds ++ rest) acc
        = (List.foldl (fun a c => a * 10 + digitVal c) acc ds, rest) := by
  induction ds with
  | nil =>
    intro acc rest hds hrest
    cases rest with
    | nil => simp [parseDigits]
    | cons c cs =>
      simp only [noDigitStart, Bool.not_eq_true'] at hrest
      simp [parseDigits, hrest]
  | cons d ds ih =>
    intro acc rest hds hrest
    have hd := hds d (by simp)
    simp only [List.cons_append, parseDigits, hd, if_true, List.foldl_cons, ite_true]
    exact ih _ rest (fun c hc => hds c (by simp [hc])) hrest

theorem parseNat_natReprL (n : Nat) (rest : List Char) (hrest : noDigitStart rest = true) :
    parseNat (natReprL n ++ rest) = some (n, rest) := by
  by_cases h0 : n = 0
  · subst h0
    have h : natReprL 0 ++ rest = '0' :: rest := by simp [natReprL]
    rw [h]
    have : parseDigits ('0' :: rest) 0 = (0, rest) := by
      have := parseDigits_append ['0'] 0 rest (by intro c hc; simp at hc; subst hc; decide) hrest
      simpa [digitVal] using this
    simp [parseNat, this]
  · have hall : ∀ c ∈ (natDigitsRevFuel n n).reverse, c.isDigit = true := by
      intro c hc
      exact natDigitsRevFuel_all_digits n n le_rfl c (List.mem_reverse.mp hc)
    have hne : (natDigitsRevFuel n n).reverse ≠ [] := by
      simp only [ne_eq, List.reverse_eq_nil_iff]
      exact natDigitsRevFuel_ne_nil n n le_rfl h0
    obtain ⟨c, t, hct⟩ := List.exists_cons_of_ne_nil hne
    have hrepr : natReprL n = c :: t := by rw [natReprL, if_neg h0, hct]
    have hcdig : c.isDigit = true := hall c (by rw [hct]; simp)
    have htdig : ∀ x ∈ c :: t, x.isDigit = true := by rw [← hct]; exact hall
    have hfold := foldl_natDigitsRevFuel n n 0 le_rfl
    rw [hct] at hfold
    have hpd := parseDigits_append (c :: t) 0 rest htdig hrest
    rw [hrepr, List.cons_append, parseNat, if_pos hcdig, ← List.cons_append, hpd, hfold]
    simp

theorem intReprL_parse_nonneg (n : Int) (hn : 0 ≤ n) :
    intReprL n = natReprL n.natAbs := by
  rw [intReprL, if_neg (by omega)]

/-! ## Escape lemmas -/

theorem safeChar_facts (c : Char) (h : safeChar c = true) :
    32 ≤ c.toNat ∧ c.toNat < 128 ∧ c ≠ '"' ∧ c ≠ '\\' := by
  simp only [safeChar, Bool.and_eq_true, Bool.not_eq_true', decide_eq_true_eq,
    decide_eq_false_iff_not] at h
  exact ⟨h.1.1.1, h.1.1.2, h.1.2, h.2⟩

theorem escapeChar_safe (c : Char) (h : safeChar c = true) : escapeChar c = [c] := by
  obtain ⟨h1, h2, h3, h4⟩ := safeChar_facts c h
  rw [escapeChar, if_neg h3, if_neg h4]
  rw [if_neg (by intro heq; rw [heq] at h1; exact absurd h1 (by decide))]
  rw [if_neg (by intro heq; rw [heq] at h1; exact absurd h1 (by decide))]
  rw [if_neg (by intro heq; rw [heq] at h1; exact absurd h1 (by decide))]
  rw [if_neg (by intro heq; rw [heq] at h1; exact absurd h1 (by decide))]
  rw [if_neg (by intro heq; rw [heq] at h1; exact absurd h1 (by decide))]
  rw [if_neg (by omega)]

theorem escapeL_safe (l : List Char) (h : safeS l = true) : escapeL l = l := by
  induction l with
  | nil => rfl
  | cons c cs ih =>
    simp only [safeS, List.all_cons, Bool.and_eq_true] at h
    rw [escapeL, escapeChar_safe c h.1, ih (by simp [safeS, h.2])]
    rfl

theorem parseStringBody_safe (l : List Char) :
    ∀ rest, safeS l = true → parseStringBody (l ++ '"' :: rest) = some (l, rest) := by
  induction l with
  | nil =>
    intro rest _
    rw [parseStringBody.eq_def]
    simp
  | cons c cs ih =>
    intro rest h
    simp only [safeS, List.all_cons, Bool.and_eq_true] at h
    obtain ⟨h1, h2, h3, h4⟩ := safeChar_facts c h.1
    rw [List.cons_append, parseStringBody.eq_def]
    simp only []
    rw [if_neg h3, if_neg h4, ih rest (by simp [safeS, h.2])]
    rfl

/-! ## Decoder step lemmas -/

theorem skipWs_cons_not_ws (c : Char) (l : List Char) (h : isWsChar c = false) :
    skipWs (c :: l) = c :: l := by
  simp [skipWs, h]

theorem skipWs_space (l : List Char) : skipWs (' ' :: l) = skipWs l := by
  simp [skipWs, isWsChar]

theorem noDigitStart_cons (c : Char) (t : List Char) :
    noDigitStart (c :: t) = !c.isDigit := rfl

theorem digit_not_keyword (c : Char) (h : c.isDigit = true) :
    'n' ≠ c ∧ 't' ≠ c ∧ 'f' ≠ c ∧ '"' ≠ c ∧ '[' ≠ c ∧ '\x7b' ≠ c ∧ '-' ≠ c := by
  refine ⟨?_, ?_, ?_, ?_, ?_, ?_, ?_⟩ <;> (intro heq; subst heq; exact absurd h (by decide))

theorem pv_null (f : Nat) (rest : List Char) :
    parseValue (f + 1) ('n' :: 'u' :: 'l' :: 'l' :: rest) = some (.null, rest) := rfl

theorem pv_true (f : Nat) (rest : List Char) :
    parseValue (f + 1) ('t' :: 'r' :: 'u' :: 'e' :: rest) = some (.bool true, rest) := rfl

theorem pv_false (f : Nat) (rest : List Char) :
    parseValue (f + 1) ('f' :: 'a' :: 'l' :: 's' :: 'e' :: rest) = some (.bool false, rest) := rfl

theorem pv_str (f : Nat) (cs : List Char) :
    parseValue (f + 1) ('"' :: cs) =
      match parseStringBody cs with
      | some (s, r) => some (.str (String.mk s), r)
      | none => none := rfl

theorem pv_arr (f : Nat) (cs : List Char) :
    parseValue (f + 1) ('[' :: cs) =
      match skipWs cs with
      | [] => none
      | c' :: r =>
        if c' = ']' then some (.arr [], r)
        else
          match parseValue f (c' :: r) with
          | some (v, r1) =>
            match parseElemsRest f r1 with
            | some (vs, r2) => some (.arr (v :: vs), r2)
            | none => none
          | none => none := rfl

theorem pv_obj (f : Nat) (cs : List Char) :
    parseValue (f + 1) ('\x7b' :: cs) =
      match skipWs cs with
      | [] => none
      | c' :: r =>
        if c' = '\x7d' then some (.obj [], r)
        else if c' = '"' then
          match parseStringBody r with
          | some (k, r1) =>
            match skipWs r1 with
            | [] => none
            | c2 :: r2 =>
              if c2 = ':' then
                match parseValue f (skipWs r2) with
                | some (v, r3) =>
                  match parseMembersRest f r3 with
                  | some (kvs, r4) => some (.obj ((String.mk k, v) :: kvs), r4)
                  | none => none
                | none => none
              else none
          | none => none
        else none := rfl

theorem pv_neg (f : Nat) (cs : List Char) :
    parseValue (f + 1) ('-' :: cs) =
      match parseNat cs with
      | some (m, r) => some (.int (-(m : Int)), r)
      | none => none := rfl

theorem pv_digit (f : Nat) (c : Char) (cs : List Char) (h : c.isDigit = true) :
    parseValue (f + 1) (c :: cs) =
      match parseNat (c :: cs) with
      | some (m, r) => some (.int (m : Int), r)
      | none => none := by
  obtain ⟨h1, h2, h3, h4, h5, h6, h7⟩ := digit_not_keyword c h
  show (if c = 'n' then _ else _) = _
  rw [if_neg h1.symm, if_neg h2.symm, if_neg h3.symm, if_neg h4.symm, if_neg h5.symm,
    if_neg h6.symm, if_neg h7.symm, if_pos h]
  rfl

theorem per_step (f : Nat) (l : List Char) :
    parseElemsRest (f + 1) l =
      match skipWs l with
      | [] => none
      | c :: r =>
        if c = ']' then some ([], r)
        else if c = ',' then
          match parseValue f (skipWs r) with
          | some (v, r1) =>
            match parseElemsRest f r1 with
            | some (vs, r2) => some (v :: vs, r2)
            | none => none
          | none => none
        else none := rfl

theorem pm_step (f : Nat) (l : List Char) :
    parseMembersRest (f + 1) l =
      match skipWs l with
      | [] => none
      | c :: r =>
        if c = '\x7d' then some ([], r)
        else if c = ',' then
          match skipWs r with
          | [] => none
          | c1 :: r1 =>
            if c1 = '"' then
              match parseStringBody r1 with
              | some (k, r2) =>
                match skipWs r2 with
                | [] => none
                | c2 :: r3 =>
                  if c2 = ':' then
                    match parseValue f (skipWs r3) with
                    | some (v, r4) =>
                      match parseMembersRest f r4 with
                      | some (kvs, r5) => some ((String.mk k, v) :: kvs, r5)
                      | none => none
                    | none => none
                  else none
              | none => none
            else none
      else none := rfl

/-! ## Round-trip of the encoder and the decoder -/

theorem string_mk_data (s : String) : String.mk s.data = s := by
  cases s
  rfl

theorem natReprL_cons_digit (n : Nat) :
    ∃ c t, natReprL n = c :: t ∧ c.isDigit = true := by
  by_cases h0 : n = 0
  · exact ⟨'0', [], by simp [natReprL, h0], by decide⟩
  · have hne : (natDigitsRevFuel n n).reverse ≠ [] := by
      simp only [ne_eq, List.reverse_eq_nil_iff]
      exact natDigitsRevFuel_ne_nil n n le_rfl h0
    obtain ⟨c, t, hct⟩ := List.exists_cons_of_ne_nil hne
    refine ⟨c, t, by rw [natReprL, if_neg h0, hct], ?_⟩
    exact natDigitsRevFuel_all_digits n n le_rfl c (List.mem_reverse.mp (by rw [hct]; simp))

theorem digit_char_facts (c : Char) (h : c.isDigit = true) :
    isWsChar c = false ∧ c ≠ ']' := by
  have h1 : c ≠ ' ' := by intro heq; subst heq; exact absurd h (by decide)
  have h2 : c ≠ '\n' := by intro heq; subst heq; exact absurd h (by decide)
  have h3 : c ≠ '\t' := by intro heq; subst heq; exact absurd h (by decide)
  have h4 : c ≠ '\r' := by intro heq; subst heq; exact absurd h (by decide)
  have h5 : c ≠ ']' := by intro heq; subst heq; exact absurd h (by decide)
  exact ⟨by simp [isWsChar, h1, h2, h3, h4], h5⟩

theorem dumpsL_head (v : JSON) :
    ∃ c t, dumpsL v = c :: t ∧ isWsChar c = false ∧ c ≠ ']' := by
  cases v with
  | null => exact ⟨'n', ['u', 'l', 'l'], by simp [dumpsL], by decide, by decide⟩
  | bool b =>
    cases b with
    | true => exact ⟨'t', ['r', 'u', 'e'], by simp [dumpsL], by decide, by decide⟩
    | false => exact ⟨'f', ['a', 'l', 's', 'e'], by simp [dumpsL], by decide, by decide⟩
  | int n =>
    by_cases hneg : n < 0
    · exact ⟨'-', natReprL n.natAbs, by simp [dumpsL, intReprL, hneg], by decide, by decide⟩
    · obtain ⟨c, t, hct, hdig⟩ := natReprL_cons_digit n.natAbs
      obtain ⟨hws, hrb⟩ := digit_char_facts c hdig
      exact ⟨c, t, by simp [dumpsL, intReprL, hneg, hct], hws, hrb⟩
  | str s => exact ⟨'"', escapeL s.data ++ ['"'], by simp [dumpsL], by decide, by decide⟩
  | arr xs => exact ⟨'[', dumpsElems xs ++ [']'], by simp [dumpsL], by decide, by decide⟩
  | obj kvs =>
    exact ⟨'\x7b', dumpsMembers kvs ++ ['\x7d'], by simp [dumpsL], by decide, by decide⟩

theorem noDigitStart_dumpsTail (t : List JSON) (rest : List Char) :
    noDigitStart (dumpsTail t ++ ']' :: rest) = true := by
  cases t with
  | nil => simp [dumpsTail, noDigitStart]
  | cons y t' => simp [dumpsTail, noDigitStart]

theorem noDigitStart_dumpsMembersTail (t : List (String × JSON)) (rest : List Char) :
    noDigitStart (dumpsMembersTail t ++ '\x7d' :: rest) = true := by
  cases t with
  | nil => simp [dumpsMembersTail, noDigitStart]
  | cons kv t' =>
    obtain ⟨k, v⟩ := kv
    simp [dumpsMembersTail, noDigitStart]

theorem parsesOK_elems (t : List JSON) (H : ∀ x ∈ t, ParsesOK x) :
    ∀ fuel rest, (dumpsTail t).length < fuel → noDigitStart rest = true →
      parseElemsRest fuel (dumpsTail t ++ ']' :: rest) = some (t, rest) := by
  induction t with
  | nil =>
    intro fuel rest hf hr
    cases fuel with
    | zero => omega
    | succ f =>
      rw [show dumpsTail ([] : List JSON) ++ ']' :: rest = ']' :: rest by simp [dumpsTail]]
      rw [per_step, skipWs_cons_not_ws ']' rest (by decide)]
      simp
  | cons y t' ih =>
    intro fuel rest hf hr
    have hlen : (dumpsTail (y :: t')).length
        = 2 + (dumpsL y).length + (dumpsTail t').length := by
      simp [dumpsTail]
      omega
    cases fuel with
    | zero => omega
    | succ f =>
      obtain ⟨c0, t0, hy, hws, hrb⟩ := dumpsL_head y
      rw [show dumpsTail (y :: t') ++ ']' :: rest
            = ',' :: (' ' :: (dumpsL y ++ (dumpsTail t' ++ ']' :: rest))) by
          simp [dumpsTail]]
      rw [per_step, skipWs_cons_not_ws ',' _ (by decide)]
      show (if (',' : Char) = ']' then _ else _) = _
      rw [if_neg (by decide), if_pos rfl, skipWs_space]
      rw [show skipWs (dumpsL y ++ (dumpsTail t' ++ ']' :: rest))
            = dumpsL y ++ (dumpsTail t' ++ ']' :: rest) by
          rw [hy, List.cons_append, skipWs_cons_not_ws c0 _ hws]]
      rw [H y (by simp) f _ (by omega) (noDigitStart_dumpsTail t' rest)]
      simp only []
      rw [ih (fun x hx => H x (by simp [hx])) f rest (by omega) hr]

theorem parsesOK_members (t : List (String × JSON))
    (Hk : ∀ kv ∈ t, safeS kv.1.data = true) (H : ∀ kv ∈ t, ParsesOK kv.2) :
    ∀ fuel rest, (dumpsMembersTail t).length < fuel → noDigitStart rest = true →
      parseMembersRest fuel (dumpsMembersTail t ++ '\x7d' :: rest) = some (t, rest) := by
  induction t with
  | nil =>
    intro fuel rest hf hr
    cases fuel with
    | zero => omega
    | succ f =>
      rw [show dumpsMembersTail ([] : List (String × JSON)) ++ '\x7d' :: rest
            = '\x7d' :: rest by simp [dumpsMembersTail]]
      rw [pm_step, skipWs_cons_not_ws '\x7d' rest (by decide)]
      simp
  | cons kv t' ih =>
    intro fuel rest hf hr
    obtain ⟨k, v⟩ := kv
    have hkey : safeS k.data = true := Hk (k, v) (by simp)
    have hlen : (dumpsMembersTail ((k, v) :: t')).length
        = 6 + k.data.length + (dumpsL v).length + (dumpsMembersTail t').length := by
      simp [dumpsMembersTail, escapeL_safe k.data hkey]
      omega
    cases fuel with
    | zero => omega
    | succ f =>
      obtain ⟨c0, t0, hv, hws, hrb⟩ := dumpsL_head v
      rw [show dumpsMembersTail ((k, v) :: t') ++ '\x7d' :: rest
            = ',' :: (' ' :: ('"' :: (escapeL k.data
                ++ ('"' :: ':' :: ' ' :: (dumpsL v
                  ++ (dumpsMembersTail t' ++ '\x7d' :: rest)))))) by
          simp [dumpsMembersTail]]
      rw [pm_step, skipWs_cons_not_ws ',' _ (by decide)]
      show (if (',' : Char) = '\x7d' then _ else _) = _
      rw [if_neg (by decide), if_pos rfl, skipWs_space,
        skipWs_cons_not_ws '"' _ (by decide)]
      show (if ('"' : Char) = '"' then _ else _) = _
      rw [if_pos rfl, escapeL_safe k.data hkey,
        parseStringBody_safe k.data _ hkey]
      simp only []
      rw [skipWs_cons_not_ws ':' _ (by decide)]
      show (if (':' : Char) = ':' then _ else _) = _
      rw [if_pos rfl, skipWs_space]
      rw [show skipWs (dumpsL v ++ (dumpsMembersTail t' ++ '\x7d' :: rest))
            = dumpsL v ++ (dumpsMembersTail t' ++ '\x7d' :: rest) by
          rw [hv, List.cons_append, skipWs_cons_not_ws c0 _ hws]]
      have hOKv : ParsesOK v := H (k, v) (by simp)
      rw [hOKv f _ (by omega) (noDigitStart_dumpsMembersTail t' rest)]
      simp only []
      rw [ih (fun x hx => Hk x (by simp [hx])) (fun x hx => H x (by simp [hx]))
        f rest (by omega) hr]

theorem safeJ_parsesOK (v : JSON) (hs : SafeJ v) : ParsesOK v := by
  induction hs with
  | null =>
    intro fuel rest hf hr
    cases fuel with
    | zero => omega
    | succ f =>
      rw [show dumpsL .null ++ rest = 'n' :: 'u' :: 'l' :: 'l' :: rest by simp [dumpsL]]
      exact pv_null f rest
  | bool b =>
    intro fuel rest hf hr
    cases fuel with
    | zero => omega
    | succ f =>
      cases b with
      | true =>
        rw [show dumpsL (.bool true) ++ rest = 't' :: 'r' :: 'u' :: 'e' :: rest by
          simp [dumpsL]]
        exact pv_true f rest
      | false =>
        rw [show dumpsL (.bool false) ++ rest = 'f' :: 'a' :: 'l' :: 's' :: 'e' :: rest by
          simp [dumpsL]]
        exact pv_false f rest
  | int n =>
    intro fuel rest hf hr
    cases fuel with
    | zero => omega
    | succ f =>
      rw [show dumpsL (.int n) = intReprL n by simp [dumpsL]]
      by_cases hneg : n < 0
      · rw [intReprL, if_pos hneg, List.cons_append, pv_neg,
          parseNat_natReprL n.natAbs rest hr]
        have habs : (n.natAbs : Int) = -n := by omega
        simp [habs]
      · rw [intReprL, if_neg hneg]
        obtain ⟨c, t, hct, hdig⟩ := natReprL_cons_digit n.natAbs
        rw [hct, List.cons_append, pv_digit f c _ hdig, ← List.cons_append, ← hct,
          parseNat_natReprL n.natAbs rest hr]
        have habs : (n.natAbs : Int) = n := by omega
        simp [habs]
  | str s h =>
    intro fuel rest hf hr
    cases fuel with
    | zero => omega
    | succ f =>
      rw [show dumpsL (.str s) ++ rest = '"' :: (escapeL s.data ++ (['"'] ++ rest)) by
        simp [dumpsL]]
      rw [escapeL_safe s.data h, List.singleton_append, pv_str,
        parseStringBody_safe s.data rest h]
  | arr xs h ih =>
    intro fuel rest hf hr
    have hlen : (dumpsL (.arr xs)).length = 2 + (dumpsElems xs).length := by
      simp [dumpsL]
      omega
    cases fuel with
    | zero => omega
    | succ f =>
      rw [show dumpsL (.arr xs) ++ rest = '[' :: (dumpsElems xs ++ (']' :: rest)) by
        simp [dumpsL]]
      rw [pv_arr]
      cases xs with
      | nil =>
        rw [show dumpsElems ([] : List JSON) ++ ']' :: rest = ']' :: rest by
          simp [dumpsElems]]
        rw [skipWs_cons_not_ws ']' rest (by decide)]
        simp
      | cons y t =>
        have hsplit : dumpsElems (y :: t) ++ ']' :: rest
            = dumpsL y ++ (dumpsTail t ++ ']' :: rest) := by
          simp [dumpsElems]
        have hlen2 : (dumpsElems (y :: t)).length
            = (dumpsL y).length + (dumpsTail t).length := by
          simp [dumpsElems]
        rw [hsplit]
        obtain ⟨c0, t0, hy, hws, hrb⟩ := dumpsL_head y
        rw [show skipWs (dumpsL y ++ (dumpsTail t ++ ']' :: rest))
              = dumpsL y ++ (dumpsTail t ++ ']' :: rest) by
            rw [hy, List.cons_append, skipWs_cons_not_ws c0 _ hws]]
        rw [hy, List.cons_append]
        show (if c0 = ']' then _ else _) = _
        rw [if_neg hrb, ← List.cons_append, ← hy]
        have hOKy : ParsesOK y := ih y (by simp)
        rw [hOKy f _ (by omega) (noDigitStart_dumpsTail t rest)]
        simp only []
        rw [parsesOK_elems t (fun x hx => ih x (by simp [hx])) f rest (by omega) hr]
  | obj kvs hk hv ih =>
    intro fuel rest hf hr
    have hlen : (dumpsL (.obj kvs)).length = 2 + (dumpsMembers kvs).length := by
      simp [dumpsL]
      omega
    cases fuel with
    | zero => omega
    | succ f =>
      rw [show dumpsL (.obj kvs) ++ rest = '\x7b' :: (dumpsMembers kvs ++ ('\x7d' :: rest)) by
        simp [dumpsL]]
      rw [pv_obj]
      cases kvs with
      | nil =>
        rw [show dumpsMembers ([] : List (String × JSON)) ++ '\x7d' :: rest
              = '\x7d' :: rest by simp [dumpsMembers]]
        rw [skipWs_cons_not_ws '\x7d' rest (by decide)]
        simp
      | cons kv t =>
        obtain ⟨k, v⟩ := kv
        have hkey : safeS k.data = true := hk (k, v) (by simp)
        have hsplit : dumpsMembers ((k, v) :: t) ++ '\x7d' :: rest
            = '"' :: (escapeL k.data
                ++ ('"' :: ':' :: ' ' :: (dumpsL v
                  ++ (dumpsMembersTail t ++ '\x7d' :: rest)))) := by
          simp [dumpsMembers]
        have hlen2 : (dumpsMembers ((k, v) :: t)).length
            = 4 + k.data.length + (dumpsL v).length + (dumpsMembersTail t).length := by
          simp [dumpsMembers, escapeL_safe k.data hkey]
          omega
        rw [hsplit, skipWs_cons_not_ws '"' _ (by decide)]
        show (if ('"' : Char) = '\x7d' then _ else _) = _
        rw [if_neg (by decide), if_pos rfl, escapeL_safe k.data hkey,
          parseStringBody_safe k.data _ hkey]
        simp only []
        rw [skipWs_cons_not_ws ':' _ (by decide)]
        show (if (':' : Char) = ':' then _ else _) = _
        rw [if_pos rfl, skipWs_space]
        obtain ⟨c0, t0, hv0, hws, hrb⟩ := dumpsL_head v
        rw [show skipWs (dumpsL v ++ (dumpsMembersTail t ++ '\x7d' :: rest))
              = dumpsL v ++ (dumpsMembersTail t ++ '\x7d' :: rest) by
            rw [hv0, List.cons_append, skipWs_cons_not_ws c0 _ hws]]
        have hOKv : ParsesOK v := ih (k, v) (by simp)
        rw [hOKv f _ (by omega) (noDigitStart_dumpsMembersTail t rest)]
        simp only []
        rw [parsesOK_members t (fun x hx => hk x (by simp [hx]))
          (fun x hx => ih x (by simp [hx])) f rest (by omega) hr]

theorem loads_dumps (v : JSON) (hs : SafeJ v) : loads (dumps v) = some v := by
  obtain ⟨c0, t0, hv, hws, _⟩ := dumpsL_head v
  unfold loads
  rw [show (dumps v).data = dumpsL v from rfl]
  rw [show skipWs (dumpsL v) = dumpsL v by rw [hv]; exact skipWs_cons_not_ws c0 _ hws]
  have hp : parseValue ((dumps v).length + 1) (dumpsL v ++ []) = some (v, []) :=
    safeJ_parsesOK v hs ((dumps v).length + 1) []
      (by rw [show (dumps v).length = (dumpsL v).length from rfl]; omega) (by decide)
  rw [List.append_nil] at hp
  rw [hp]
  simp [skipWs]

/-! ## tolist bridges -/

theorem pyToJsonList_map (f : List Int → PyVal) (g : List Int → JSON)
    (H : ∀ c, pyToJson (f c) = .ok (g c)) :
    ∀ l : List (List Int), pyToJsonList (l.map f) = .ok (l.map g) := by
  intro l
  induction l with
  | nil => simp [pyToJsonList]
  | cons c l ih => simp [pyToJsonList, H c, ih]

theorem pyToJson_tolist (s : List Nat) :
    ∀ d, pyToJson (tolist s d) = .ok (tolistJ s d) := by
  induction s with
  | nil => intro d; simp [tolist, tolistJ, pyToJson]
  | cons n rest ih =>
    intro d
    simp only [tolist, tolistJ]
    simp [pyToJson, pyToJsonList_map (fun c => tolist rest c) (fun c => tolistJ rest c) ih]

theorem safeJ_tolistJ (s : List Nat) : ∀ d, SafeJ (tolistJ s d) := by
  induction s with
  | nil => intro d; exact SafeJ.int _
  | cons n rest ih =>
    intro d
    rw [show tolistJ (n :: rest) d
          = .arr ((chunks rest.prod n d).map (fun c => tolistJ rest c)) from by
        simp [tolistJ]]
    refine SafeJ.arr _ ?_
    intro x hx
    obtain ⟨c, _, rfl⟩ := List.mem_map.mp hx
    exact ih c

theorem flattenJ_chunks (rest : List Nat)
    (IH : ∀ d, d.length = rest.prod → flattenJ (tolistJ rest d) = d) :
    ∀ n d, d.length = n * rest.prod →
      flattenJList ((chunks rest.prod n d).map (fun c => tolistJ rest c)) = d := by
  intro n
  induction n with
  | zero =>
    intro d hd
    simp only [Nat.zero_mul] at hd
    rw [List.length_eq_zero] at hd
    simp [chunks, flattenJList, hd]
  | succ n ih =>
    intro d hd
    have hspl : (n + 1) * rest.prod = n * rest.prod + rest.prod := by ring
    rw [hspl] at hd
    simp only [chunks, List.map_cons, flattenJList]
    rw [IH (d.take rest.prod) (by rw [List.length_take]; omega)]
    rw [ih (d.drop rest.prod) (by rw [List.length_drop]; omega)]
    exact List.take_append_drop _ d

theorem flattenJ_tolistJ (s : List Nat) :
    ∀ d, d.length = s.prod → flattenJ (tolistJ s d) = d := by
  induction s with
  | nil =>
    intro d hd
    simp only [List.prod_nil] at hd
    obtain ⟨x, rfl⟩ := List.length_eq_one.mp hd
    simp [tolistJ, flattenJ]
  | cons n rest ih =>
    intro d hd
    rw [show tolistJ (n :: rest) d
          = .arr ((chunks rest.prod n d).map (fun c => tolistJ rest c)) from by
        simp [tolistJ]]
    rw [show flattenJ (.arr ((chunks rest.prod n d).map (fun c => tolistJ rest c)))
          = flattenJList ((chunks rest.prod n d).map (fun c => tolistJ rest c)) from by
        simp [flattenJ]]
    exact flattenJ_chunks rest ih n d (by simpa [List.prod_cons] using hd)

/-! ## Serializer computation lemmas -/

theorem serialize_pydict (r : Bool) (items : List (String × PyVal)) :
    JSONSerializer.serialize (.pydict r items)
      = (serializeDictItems items, .pydict r items) := rfl

theorem serialize_pystream (c : List Char) (p : Nat) :
    JSONSerializer.serialize (.pystream c p)
      = (.ok (String.mk (c.drop p)), .pystream c c.length) := rfl

theorem serialize_ndarray_eq (s : List Nat) (d : List Int) :
    JSONSerializer.serialize (.ndarray s d) = (jsonDumpsPy (tolist s d), .ndarray s d) := rfl

theorem serialize_other (d : PyVal) (h1 : isDictV d = false) (h2 : hasReadAttr d = false)
    (h3 : isNdarrayV d = false) :
    JSONSerializer.serialize d = (jsonDumpsPy d, d) := by
  cases d
  case pydict r items => simp [isDictV] at h1
  case pystream c p => simp [hasReadAttr] at h2
  case ndarray s dt => simp [isNdarrayV] at h3
  all_goals rfl

theorem serialize_snd (d : PyVal) (h : ∀ c p, d ≠ .pystream c p) :
    (JSONSerializer.serialize d).2 = d := by
  cases d
  case pystream c p => exact absurd rfl (h c p)
  all_goals rfl

theorem jsonDumpsPy_error (v : PyVal) (e : String) (h : pyToJson v = .error e) :
    jsonDumpsPy v = .error e := by
  simp [jsonDumpsPy, h]

theorem jsonDumpsPy_ok (v : PyVal) (j : JSON) (h : pyToJson v = .ok j) :
    jsonDumpsPy v = .ok (dumps j) := by
  simp [jsonDumpsPy, h]

theorem pyToJsonItems_error_of_mem :
    ∀ its : List (String × PyVal), (∃ kv ∈ its, ∃ e, pyToJson kv.2 = .error e) →
      ∃ e, pyToJsonItems its = .error e := by
  intro its h
  induction its with
  | nil => simp at h
  | cons kv t ih =>
    obtain ⟨k, v⟩ := kv
    obtain ⟨kv', hmem, e', he'⟩ := h
    rcases List.mem_cons.mp hmem with heq | hmem'
    · subst heq
      exact ⟨e', by simp [pyToJsonItems, he']⟩
    · cases hv : pyToJson v with
      | ok j =>
        obtain ⟨e, he⟩ := ih ⟨kv', hmem', e', he'⟩
        exact ⟨e, by simp [pyToJsonItems, hv, he]⟩
      | error e => exact ⟨e, by simp [pyToJsonItems, hv]⟩

theorem pyToJson_convertTop_expected (v : PyVal) (j : JSON) (h : expectedVal v = some j) :
    pyToJson (convertTop v) = .ok j := by
  cases v with
  | ndarray s d =>
    simp only [expectedVal, Option.some_inj] at h
    subst h
    rw [show convertTop (.ndarray s d) = tolist s d from rfl]
    exact pyToJson_tolist s d
  | pynone => simp only [expectedVal, primJson, Option.some_inj] at h; subst h; rfl
  | pybool b => simp only [expectedVal, primJson, Option.some_inj] at h; subst h; rfl
  | pyint n => simp only [expectedVal, primJson, Option.some_inj] at h; subst h; rfl
  | pystr s => simp only [expectedVal, primJson, Option.some_inj] at h; subst h; rfl
  | pylist xs => simp [expectedVal, primJson] at h
  | pyset xs => simp [expectedVal, primJson] at h
  | pydict r items => simp [expectedVal, primJson] at h
  | pystream c p => simp [expectedVal, primJson] at h
  | custom => simp [expectedVal, primJson] at h

theorem pyToJsonItems_converted :
    ∀ (items : List (String × PyVal)) (exps : List (String × JSON)),
      expectedItems items = some exps →
      pyToJsonItems (items.map fun kv => (kv.1, convertTop kv.2)) = .ok exps := by
  intro items
  induction items with
  | nil =>
    intro exps h
    simp only [expectedItems, Option.some_inj] at h
    subst h
    rfl
  | cons kv t ih =>
    obtain ⟨k, v⟩ := kv
    intro exps h
    cases hev : expectedVal v with
    | none => rw [expectedItems, hev] at h; simp at h
    | some j =>
      cases het : expectedItems t with
      | none => rw [expectedItems, hev, het] at h; simp at h
      | some js =>
        rw [expectedItems, hev, het] at h
        simp only [Option.some_inj] at h
        subst h
        have hv := pyToJson_convertTop_expected v j hev
        simp [pyToJsonItems, hv, ih js het]

theorem serializeDictItems_expected (items : List (String × PyVal))
    (exps : List (String × JSON)) (h : expectedItems items = some exps) :
    serializeDictItems items = .ok (dumps (.obj exps)) := by
  rw [serializeDictItems, jsonDumpsPy]
  simp [pyToJson, pyToJsonItems_converted items exps h]

/-! ## Claims -/

/-- C1: serialize dispatches over payload shapes in the exact precedence
mapping, then readable stream, then numeric array, then anything else,
first match winning; in particular a mapping that also exposes a read
attribute is handled by the earlier mapping branch. -/
theorem serialize_dispatch_order (d : PyVal) :
    (dispatch d = .mapping → ∃ r items, d = .pydict r items
        ∧ JSONSerializer.serialize d = (serializeDictItems items, d))
      ∧ (dispatch d = .stream → ∃ c p, d = .pystream c p
        ∧ JSONSerializer.serialize d = (.ok (String.mk (c.drop p)), .pystream c c.length))
      ∧ (dispatch d = .array → ∃ s dt, d = .ndarray s dt
        ∧ JSONSerializer.serialize d = (jsonDumpsPy (tolist s dt), d))
      ∧ (dispatch d = .fallback → JSONSerializer.serialize d = (jsonDumpsPy d, d))
      ∧ (isDictV d = true → dispatch d = .mapping)
      ∧ (∀ items, isDictV (.pydict true items) = true
          ∧ hasReadAttr (.pydict true items) = true
          ∧ dispatch (.pydict true items) = .mapping) := by
  refine ⟨?_, ?_, ?_, ?_, ?_, ?_⟩
  · intro h
    cases d
    case pydict r items => exact ⟨r, items, rfl, rfl⟩
    all_goals exact Branch.noConfusion h
  · intro h
    cases d
    case pystream c p => exact ⟨c, p, rfl, rfl⟩
    all_goals exact Branch.noConfusion h
  · intro h
    cases d
    case ndarray s dt => exact ⟨s, dt, rfl, rfl⟩
    all_goals exact Branch.noConfusion h
  · intro h
    cases d
    case pydict r items => exact Branch.noConfusion h
    case pystream c p => exact Branch.noConfusion h
    case ndarray s dt => exact Branch.noConfusion h
    all_goals rfl
  · intro h
    cases d
    case pydict r items => rfl
    all_goals exact Bool.noConfusion h
  · intro items
    exact ⟨rfl, rfl, rfl⟩

theorem serialize_dispatch_order_witness :
    dispatch (.pydict true [("k", .pyint 1)]) = .mapping
      ∧ JSONSerializer.serialize (.pystream ['a'] 0)
          = (.ok (String.mk ['a']), .pystream ['a'] 1)
      ∧ JSONSerializer.serialize (.pyint 7) = (jsonDumpsPy (.pyint 7), .pyint 7) := by
  refine ⟨(serialize_dispatch_order (.pydict true [("k", .pyint 1)])).2.2.2.2.1 rfl, ?_, ?_⟩
  · obtain ⟨c, p, heq, hser⟩ := (serialize_dispatch_order (.pystream ['a'] 0)).2.1 rfl
    injection heq with h1 h2
    subst h1
    subst h2
    exact hser
  · exact (serialize_dispatch_order (.pyint 7)).2.2.2.1 rfl

/-- C2 counterexample: the claim says numeric arrays nested at any depth
inside a mapping are converted to list form before encoding, but a
numeric array one level below a top-level value is not converted: the
encoder raises on it instead of serializing the mapping. -/
theorem serialize_nested_array_counterexample :
    (JSONSerializer.serialize
        (.pydict false [("k", .pylist [.ndarray [1] [5]])])).1
      = .error "Object of type ndarray is not JSON serializable" := by
  simp [JSONSerializer.serialize, serializeDictItems, jsonDumpsPy, pyToJson,
    pyToJsonItems, pyToJsonList, convertTop]

/-- C2 amended: only numeric-array values sitting directly as top-level
values of the mapping are converted to their element-list representation
before encoding; an array nested deeper is not converted and makes the
encoding fail; no other payload shape receives the conversion. -/
theorem serialize_top_level_array_conversion :
    (∀ (r : Bool) (k : String) (s : List Nat) (d : List Int),
        (JSONSerializer.serialize (.pydict r [(k, .ndarray s d)])).1
          = .ok (dumps (.obj [(k, tolistJ s d)])))
      ∧ (∀ (s : List Nat) (d : List Int),
          pyToJson (.ndarray s d)
            = .error "Object of type ndarray is not JSON serializable")
      ∧ (∀ (r : Bool) (k : String) (s : List Nat) (d : List Int),
          (JSONSerializer.serialize (.pydict r [(k, .pylist [.ndarray s d])])).1
            = .error "Object of type ndarray is not JSON serializable")
      ∧ (∀ v : PyVal, isNdarrayV v = false → convertTop v = v)
      ∧ (∀ (r : Bool) (k : String) (v : PyVal), isNdarrayV v = false →
          (JSONSerializer.serialize (.pydict r [(k, v)])).1
            = jsonDumpsPy (.pydict false [(k, v)])) := by
  have hconv : ∀ v : PyVal, isNdarrayV v = false → convertTop v = v := by
    intro v hv
    cases v
    case ndarray s d => exact Bool.noConfusion hv
    all_goals rfl
  refine ⟨?_, fun s d => rfl, ?_, hconv, ?_⟩
  · intro r k s d
    rw [show (JSONSerializer.serialize (.pydict r [(k, .ndarray s d)])).1
          = serializeDictItems [(k, .ndarray s d)] from rfl]
    exact serializeDictItems_expected [(k, .ndarray s d)] [(k, tolistJ s d)] rfl
  · intro r k s d
    simp [JSONSerializer.serialize, serializeDictItems, jsonDumpsPy, pyToJson,
      pyToJsonItems, pyToJsonList, convertTop]
  · intro r k v hv
    rw [show (JSONSerializer.serialize (.pydict r [(k, v)])).1
          = serializeDictItems [(k, v)] from rfl]
    rw [serializeDictItems]
    simp [hconv v hv]

theorem serialize_top_level_array_conversion_witness :
    convertTop (.pyint 3) = .pyint 3
      ∧ (JSONSerializer.serialize (.pydict false [("a", .pystr "x")])).1
          = jsonDumpsPy (.pydict false [("a", .pystr "x")])
      ∧ (JSONSerializer.serialize (.pydict false [("k", .ndarray [2] [1, 2])])).1
          = .ok (dumps (.obj [("k", tolistJ [2] [1, 2])])) :=
  ⟨serialize_top_level_array_conversion.2.2.2.1 (.pyint 3) rfl,
   serialize_top_level_array_conversion.2.2.2.2 false "a" (.pystr "x") rfl,
   serialize_top_level_array_conversion.1 false "k" [2] [1, 2]⟩

/-- C3: a mapping of JSON-primitive values and numeric arrays round-trips
through the standard JSON decoder back to the mapping with numeric-array
values replaced by their list form; in particular a singleton mapping with
a numeric-array value decodes to the singleton object of its tolist. -/
theorem serialize_mapping_roundtrip :
    (∀ (r : Bool) (items : List (String × PyVal)) (exps : List (String × JSON)),
        expectedItems items = some exps → SafeJ (.obj exps) →
        ∃ out, (JSONSerializer.serialize (.pydict r items)).1 = .ok out
          ∧ loads out = some (.obj exps))
      ∧ (∀ (k : String) (s : List Nat) (d : List Int), safeS k.data = true →
          ∃ out, (JSONSerializer.serialize (.pydict false [(k, .ndarray s d)])).1 = .ok out
            ∧ loads out = some (.obj [(k, tolistJ s d)])) := by
  have main : ∀ (r : Bool) (items : List (String × PyVal)) (exps : List (String × JSON)),
      expectedItems items = some exps → SafeJ (.obj exps) →
      ∃ out, (JSONSerializer.serialize (.pydict r items)).1 = .ok out
        ∧ loads out = some (.obj exps) := by
    intro r items exps h hsafe
    refine ⟨dumps (.obj exps), ?_, loads_dumps _ hsafe⟩
    rw [show (JSONSerializer.serialize (.pydict r items)).1
          = serializeDictItems items from rfl]
    exact serializeDictItems_expected items exps h
  refine ⟨main, ?_⟩
  intro k s d hk
  apply main false [(k, .ndarray s d)] [(k, tolistJ s d)] rfl
  refine SafeJ.obj _ ?_ ?_
  · intro kv hkv
    rw [List.mem_singleton] at hkv
    subst hkv
    exact hk
  · intro kv hkv
    rw [List.mem_singleton] at hkv
    subst hkv
    exact safeJ_tolistJ s d

theorem serialize_mapping_roundtrip_witness :
    ∃ out,
      (JSONSerializer.serialize
          (.pydict false [("a", .pyint 1), ("b", .ndarray [2] [3, 4])])).1 = .ok out
        ∧ loads out = some (.obj [("a", .int 1), ("b", tolistJ [2] [3, 4])]) := by
  apply serialize_mapping_roundtrip.1 false
    [("a", .pyint 1), ("b", .ndarray [2] [3, 4])]
    [("a", .int 1), ("b", tolistJ [2] [3, 4])] rfl
  refine SafeJ.obj _ ?_ ?_
  · intro kv hkv
    rcases List.mem_cons.mp hkv with rfl | hkv'
    · decide
    · rw [List.mem_singleton] at hkv'
      subst hkv'
      decide
  · intro kv hkv
    rcases List.mem_cons.mp hkv with rfl | hkv'
    · exact SafeJ.int 1
    · rw [List.mem_singleton] at hkv'
      subst hkv'
      exact safeJ_tolistJ [2] [3, 4]

/-- C4: for a numeric array, the serialized output decodes to the nested
list equal to the array's list conversion, whose row-major flattening is
exactly the array's data, so shape and element order are preserved. -/
theorem serialize_ndarray_roundtrip (s : List Nat) (d : List Int)
    (h : d.length = s.prod) :
    ∃ out, (JSONSerializer.serialize (.ndarray s d)).1 = .ok out
      ∧ loads out = some (tolistJ s d)
      ∧ flattenJ (tolistJ s d) = d := by
  refine ⟨dumps (tolistJ s d), ?_, ?_, ?_⟩
  · rw [show (JSONSerializer.serialize (.ndarray s d)).1 = jsonDumpsPy (tolist s d) from rfl]
    exact jsonDumpsPy_ok _ _ (pyToJson_tolist s d)
  · exact loads_dumps _ (safeJ_tolistJ s d)
  · exact flattenJ_tolistJ s d h

theorem serialize_ndarray_roundtrip_witness :
    ∃ out, (JSONSerializer.serialize (.ndarray [2, 2] [1, 2, 3, 4])).1 = .ok out
      ∧ loads out = some (tolistJ [2, 2] [1, 2, 3, 4])
      ∧ flattenJ (tolistJ [2, 2] [1, 2, 3, 4]) = [1, 2, 3, 4] :=
  serialize_ndarray_roundtrip [2, 2] [1, 2, 3, 4] (by decide)

/-- C5: serialize on a readable stream returns exactly the remaining
contents verbatim (not JSON re-encoded) and leaves the read position fully
advanced; every payload taking a branch other than the stream branch is
returned unchanged, so no other branch has side effects. -/
theorem serialize_stream_reads_all :
    (∀ (c : List Char) (p : Nat),
        JSONSerializer.serialize (.pystream c p)
          = (.ok (String.mk (c.drop p)), .pystream c c.length))
      ∧ (∀ d : PyVal, isDictV d = true ∨ hasReadAttr d = false →
          (JSONSerializer.serialize d).2 = d) := by
  refine ⟨fun c p => rfl, ?_⟩
  intro d hd
  cases d
  case pystream c p =>
    rcases hd with hd | hd
    · exact Bool.noConfusion hd
    · exact Bool.noConfusion hd
  all_goals rfl

theorem serialize_stream_reads_all_witness :
    JSONSerializer.serialize (.pystream ['h', 'i'] 1)
        = (.ok (String.mk ['i']), .pystream ['h', 'i'] 2)
      ∧ (JSONSerializer.serialize (.pyint 3)).2 = .pyint 3 :=
  ⟨serialize_stream_reads_all.1 ['h', 'i'] 1,
   serialize_stream_reads_all.2 (.pyint 3) (Or.inr rfl)⟩

/-- C6: an input that is not a mapping, has no read attribute, is not a
numeric array, and has no JSON representation makes serialize fail with
the encoder's error, propagated unchanged to the caller with no fallback
or partial result; sets and opaque custom objects are such inputs, also
when nested. -/
theorem serialize_non_encodable_error :
    (∀ (d : PyVal) (e : String), isDictV d = false → hasReadAttr d = false →
        isNdarrayV d = false → pyToJson d = .error e →
        JSONSerializer.serialize d = (.error e, d))
      ∧ pyToJson .custom = .error "Object of type custom is not JSON serializable"
      ∧ (∀ xs, pyToJson (.pyset xs) = .error "Object of type set is not JSON serializable")
      ∧ (JSONSerializer.serialize (.pylist [.custom])).1
          = .error "Object of type custom is not JSON serializable" := by
  refine ⟨?_, rfl, fun xs => rfl, ?_⟩
  · intro d e h1 h2 h3 h4
    rw [serialize_other d h1 h2 h3, jsonDumpsPy_error d e h4]
  · rfl

theorem serialize_non_encodable_error_witness :
    JSONSerializer.serialize .custom
      = (.error "Object of type custom is not JSON serializable", .custom) :=
  serialize_non_encodable_error.1 .custom
    "Object of type custom is not JSON serializable" rfl rfl rfl rfl

/-- C7: the content type of the JSON serializer is the literal string
"application/json" for every instance, and the content type accompanying a
serialize call never depends on the payload. -/
theorem contentType_constant :
    JSONSerializer.CONTENT_TYPE = "application/json"
      ∧ (∀ data : PyVal, (prepareRequest data).2 = "application/json")
      ∧ (∀ inst, instantiate jsonSerializerClass = .ok inst →
          inst.contentType = "application/json") := by
  refine ⟨rfl, fun data => rfl, ?_⟩
  intro inst h
  rw [show instantiate jsonSerializerClass
        = .ok ⟨JSONSerializer.CONTENT_TYPE, JSONSerializer.serialize⟩ from rfl] at h
  cases h
  rfl

theorem contentType_constant_witness :
    (prepareRequest .custom).2 = "application/json"
      ∧ SerializerInstance.contentType
          ⟨JSONSerializer.CONTENT_TYPE, JSONSerializer.serialize⟩ = "application/json" :=
  ⟨contentType_constant.2.1 .custom,
   contentType_constant.2.2 ⟨JSONSerializer.CONTENT_TYPE, JSONSerializer.serialize⟩ rfl⟩

/-- C8: a concrete serializer variant that omits serialize or CONTENT_TYPE
cannot be instantiated: instantiation raises, so the variant can never be
used and no call on an instance is reached. -/
theorem abstract_variant_instantiation_error (c : VariantClass)
    (h : c.serializeImpl = none ∨ c.contentTypeImpl = none) :
    instantiate c = .error "TypeError: cannot instantiate abstract class"
      ∧ ∀ inst, instantiate c ≠ .ok inst := by
  have herr : instantiate c = .error "TypeError: cannot instantiate abstract class" := by
    rcases h with h | h
    · cases hct : c.contentTypeImpl <;> simp [instantiate, h, hct]
    · cases hs : c.serializeImpl <;> simp [instantiate, h, hs]
  refine ⟨herr, fun inst hok => ?_⟩
  rw [herr] at hok
  exact Except.noConfusion hok

theorem abstract_variant_instantiation_error_witness :
    instantiate ⟨none, some "text/csv"⟩
        = .error "TypeError: cannot instantiate abstract class"
      ∧ ∀ inst, instantiate ⟨none, some "text/csv"⟩ ≠ .ok inst :=
  abstract_variant_instantiation_error ⟨none, some "text/csv"⟩ (Or.inl rfl)

/-- C9: serialize never mutates its input: every payload other than a
top-level stream is returned unchanged, including mappings with their
numeric-array values and plain arrays and scalars. -/
theorem serialize_no_mutation :
    (∀ d : PyVal, (∀ c p, d ≠ .pystream c p) → (JSONSerializer.serialize d).2 = d)
      ∧ (∀ (r : Bool) (items : List (String × PyVal)),
          (JSONSerializer.serialize (.pydict r items)).2 = .pydict r items)
      ∧ (∀ (s : List Nat) (dt : List Int),
          (JSONSerializer.serialize (.ndarray s dt)).2 = .ndarray s dt) :=
  ⟨fun d h => serialize_snd d h, fun _ _ => rfl, fun _ _ => rfl⟩

theorem serialize_no_mutation_witness :
    (JSONSerializer.serialize (.pyint 5)).2 = .pyint 5 :=
  serialize_no_mutation.1 (.pyint 5) (fun _ _ h => PyVal.noConfusion h)

/-- C10: a mapping value that exposes a read attribute is not read by
serialize: the mapping branch wins, the stream value is passed unconverted
to the encoder, the call fails with an encoding error, and the whole
mapping, including the stream's read position, is left unchanged. -/
theorem serialize_dict_stream_value_error (r : Bool) (items : List (String × PyVal))
    (k : String) (c : List Char) (p : Nat) (hmem : (k, .pystream c p) ∈ items) :
    (∃ e, (JSONSerializer.serialize (.pydict r items)).1 = .error e)
      ∧ (JSONSerializer.serialize (.pydict r items)).2 = .pydict r items
      ∧ convertTop (.pystream c p) = .pystream c p := by
  refine ⟨?_, rfl, rfl⟩
  have hmem' : ((k, PyVal.pystream c p).1, convertTop (k, PyVal.pystream c p).2)
      ∈ items.map (fun kv => (kv.1, convertTop kv.2)) :=
    List.mem_map_of_mem _ hmem
  have herr : ∃ e, pyToJsonItems (items.map fun kv => (kv.1, convertTop kv.2)) = .error e :=
    pyToJsonItems_error_of_mem _
      ⟨_, hmem', "Object of type stream is not JSON serializable", rfl⟩
  obtain ⟨e, he⟩ := herr
  exact ⟨e, by simp [serialize_pydict, serializeDictItems, jsonDumpsPy, pyToJson, he]⟩

theorem serialize_dict_stream_value_error_witness :
    (∃ e, (JSONSerializer.serialize
        (.pydict false [("s", .pystream ['x'] 0)])).1 = .error e)
      ∧ (JSONSerializer.serialize (.pydict false [("s", .pystream ['x'] 0)])).2
          = .pydict false [("s", .pystream ['x'] 0)]
      ∧ convertTop (.pystream ['x'] 0) = .pystream ['x'] 0 :=
  serialize_dict_stream_value_error false [("s", .pystream ['x'] 0)] "s" ['x'] 0
    (List.mem_singleton_self _)
